import Mathlib

/-!
Verification of the iterative generation-test-refinement engine
(`autocoder/core/code_generator.py` and `autocoder/core/api_client.py`).

Strings are modelled as `List Char` (Python `len` and slicing count code
points, which matches `List Char` length).  Filesystem reads, subprocess
results and model responses are oracles passed in as explicit parameters.
-/

set_option maxHeartbeats 1000000

namespace Autocoder

/-- Python strings, as lists of code points. -/
abbrev Str := List Char

/-- Characters stripped by Python `str.strip()` (ASCII whitespace). -/
def pyIsSpace (c : Char) : Bool :=
  (c == ' ') || (c == '\t') || (c == '\n') || (c == '\r') || (c == '\x0b') || (c == '\x0c')

/-- Python `str.strip()`. -/
def pyStrip (l : Str) : Str :=
  ((l.dropWhile pyIsSpace).reverse.dropWhile pyIsSpace).reverse

/-- Python `str.rstrip(c)` for a single character `c`. -/
def rstripChar (c : Char) (l : Str) : Str :=
  (l.reverse.dropWhile (· == c)).reverse

/-- Line-break characters recognised by Python `str.splitlines()`. -/
def pyIsLineBreak (c : Char) : Bool :=
  (c == '\n') || (c == '\r') || (c == '\x0b') || (c == '\x0c') ||
  (c == Char.ofNat 0x1c) || (c == Char.ofNat 0x1d) || (c == Char.ofNat 0x1e) ||
  (c == Char.ofNat 0x85) || (c == Char.ofNat 0x2028) || (c == Char.ofNat 0x2029)

/-- Worker for `pySplitlines`; `cur` is the current (unfinished) line. -/
def pySplitlinesAux : Str → Str → List Str
  | [], cur => if cur.isEmpty then [] else [cur]
  | '\r' :: '\n' :: rest, cur => cur :: pySplitlinesAux rest []
  | c :: rest, cur =>
    if pyIsLineBreak c then cur :: pySplitlinesAux rest []
    else pySplitlinesAux rest (cur ++ [c])

/-- Python `str.splitlines()`. -/
def pySplitlines (l : Str) : List Str := pySplitlinesAux l []

/-- Python `"\n".join(lines)`. -/
def joinNL : List Str → Str
  | [] => []
  | [l] => l
  | l :: l' :: rest => l ++ '\n' :: joinNL (l' :: rest)

/-- The remainder of `l` after the first occurrence of `c`
(`l.split(c, 1)[1]`, or `none` when `c` does not occur). -/
def afterChar (c : Char) : Str → Option Str
  | [] => none
  | x :: rest => if x == c then some rest else afterChar c rest

/-- Python `needle in hay` (substring containment). -/
def strContains (hay needle : Str) : Bool :=
  hay.tails.any (fun t => needle.isPrefixOf t)

/-- `os.path.basename`: the part of the path after the last slash. -/
def basename (p : Str) : Str :=
  ((p.reverse.takeWhile (· != '/')).reverse)

/-- Python `str.lower()` (ASCII case fold suffices for the paths involved). -/
def pyLower (l : Str) : Str := l.map Char.toLower

/-! ## File-Block Extractor (`CodeGenerator._extract_files`) -/

/-- The three fence-open markers recognised by `_extract_files`. -/
def markerPrefixes : List Str :=
  ["```file:".data, "```python:".data, "```filepath:".data]

/-- `line.startswith("```file:") or line.startswith("```python:") or
line.startswith("```filepath:")`. -/
def isFileMarker (line : Str) : Bool :=
  markerPrefixes.any (fun m => m.isPrefixOf line)

/-- Path parsed from a marker line: `parts = line.split(":", 1)`; when a colon
exists the remainder is stripped, trailing backticks removed, stripped again. -/
def parseMarkerPath (line : Str) : Option Str :=
  match afterChar ':' line with
  | some rest => some (pyStrip (rstripChar '`' (pyStrip rest)))
  | none => none

/-- Python-dict membership test on an insertion-ordered association list. -/
def keyMem (m : List (Str × Str)) (k : Str) : Bool :=
  m.any (fun p => p.1 == k)

/-- Python-dict assignment `m[k] = v`: update in place when the key exists,
else append (insertion order preserved). -/
def dictInsert (m : List (Str × Str)) (k v : Str) : List (Str × Str) :=
  if keyMem m k then m.map (fun p => if p.1 == k then (k, v) else p)
  else m ++ [(k, v)]

/-- The scanner state of `_extract_files`: `current_file`,
`current_content`, and the result dict `extracted_files`. -/
structure ExtractState where
  currentFile : Option Str
  currentContent : List Str
  files : List (Str × Str)
deriving Repr, DecidableEq

/-- Python truthiness of the optional string `current_file`. -/
def optTruthy : Option Str → Bool
  | none => false
  | some s => !s.isEmpty

/-- One step of the line scanner of `_extract_files`, faithful to the three
branches of the Python loop body (including the quirks: a flush happens only
when both `current_file` and `current_content` are truthy, and a bare closing
fence with empty accumulated content leaves the file open). -/
def processLine (st : ExtractState) (line : Str) : ExtractState :=
  if isFileMarker line then
    let st1 :=
      match st.currentFile with
      | some f =>
        if !f.isEmpty && !st.currentContent.isEmpty then
          { st with files := dictInsert st.files f (joinNL st.currentContent),
                    currentContent := [] }
        else st
      | none => st
    match parseMarkerPath line with
    | some p => { st1 with currentFile := some p }
    | none => { st1 with currentFile := none }
  else if pyStrip line == "```".data && optTruthy st.currentFile then
    match st.currentFile with
    | some f =>
      if !st.currentContent.isEmpty then
        { st with files := dictInsert st.files f (joinNL st.currentContent),
                  currentContent := [], currentFile := none }
      else st
    | none => st
  else if st.currentFile.isSome then
    { st with currentContent := st.currentContent ++ [line] }
  else st

/-- `_extract_files`, after splitting the response into lines. -/
def extractFilesLines (lines : List Str) : List (Str × Str) :=
  let fin := lines.foldl processLine ⟨none, [], []⟩
  match fin.currentFile with
  | some f =>
    if !f.isEmpty && !fin.currentContent.isEmpty then
      dictInsert fin.files f (joinNL fin.currentContent)
    else fin.files
  | none => fin.files

/-- `CodeGenerator._extract_files`. -/
def extractFiles (codeOutput : Str) : List (Str × Str) :=
  extractFilesLines (pySplitlines codeOutput)

/-! ### Well-formed fenced responses

A well-formed file fence is a marker line (one of the three fence-open
variants followed by a path), content lines, and a bare closing fence.
`renderResponse` produces exactly the responses made of such fences,
possibly interleaved — the quantification domain of the extractor claims. -/

/-- One file fence of a model response: which marker variant opens it, the raw
path text after the colon, and the content lines. -/
structure FileBlock where
  marker : Str
  rawPath : Str
  content : List Str

/-- The key under which the extractor files a fence: the raw path stripped,
with trailing backticks then whitespace removed (mirrors `parseMarkerPath`). -/
def parsedPath (b : FileBlock) : Str := pyStrip (rstripChar '`' (pyStrip b.rawPath))

/-- The lines of one well-formed (closed) file fence. -/
def renderBlock (b : FileBlock) : List Str :=
  (b.marker ++ b.rawPath) :: (b.content ++ ["```".data])

/-- The lines of a fence that is opened but never closed (truncated response). -/
def renderOpenBlock (b : FileBlock) : List Str :=
  (b.marker ++ b.rawPath) :: b.content

/-- A response consisting of well-formed file fences. -/
def renderResponse (bs : List FileBlock) : Str :=
  joinNL ((bs.map renderBlock).flatten)

/-- A response whose last fence is opened but never closed. -/
def renderTruncated (bs : List FileBlock) (b : FileBlock) : Str :=
  joinNL ((bs.map renderBlock).flatten ++ renderOpenBlock b)

/-- No line-break characters inside a line. -/
def noBreak (l : Str) : Bool := l.all (fun c => !pyIsLineBreak c)

/-- A content line: breaks nothing — it is not itself a fence-open marker nor a
bare closing fence, and holds no line break. -/
def contentLineOk (l : Str) : Bool :=
  noBreak l && !isFileMarker l && !(pyStrip l == "```".data)

/-- A well-formed fence for the amended extraction claim: a real marker
variant, a clean path that parses to a non-empty key, and at least one
content line. -/
def blockOk (b : FileBlock) : Bool :=
  markerPrefixes.contains b.marker && noBreak b.rawPath &&
    b.content.all contentLineOk && !b.content.isEmpty && !(parsedPath b).isEmpty

/-- Concrete well-formed response used to witness the extraction theorem. -/
def witnessBlocks : List FileBlock :=
  [⟨"```file:".data, " a.py ".data, ["x = 1".data]⟩,
   ⟨"```python:".data, "b.py".data, ["y".data, "".data]⟩]

/-- Two well-formed fences, the second with empty content. -/
def cexEmptyContentBlocks : List FileBlock :=
  [⟨"```file:".data, "a.py".data, ["x".data]⟩,
   ⟨"```file:".data, "b.py".data, []⟩]

/-- Two well-formed fences with the same path. -/
def cexDupPathBlocks : List FileBlock :=
  [⟨"```file:".data, "a.py".data, ["x".data]⟩,
   ⟨"```file:".data, "a.py".data, ["y".data]⟩]

/-- Closed fence followed by an unclosed fence, to witness the truncated-response theorem. -/
def witnessClosedBlock : FileBlock := ⟨"```file:".data, "a.py".data, ["x = 1".data]⟩

/-- The unclosed trailing fence of the truncated-response witness. -/
def witnessOpenBlock : FileBlock := ⟨"```filepath:".data, "b.py".data, ["tail".data]⟩

/-! ## File Writer (`CodeGenerator._write_files`) -/

/-- `os.path.join(a, b)`: an absolute `b` wins; otherwise `b` is appended to
`a` with a separator inserted unless `a` is empty or already ends in one. -/
def joinPath (a b : Str) : Str :=
  if b.head? = some '/' then b
  else if a = [] then b
  else if a.getLast? = some '/' then a ++ b
  else a ++ '/' :: b

/-- `CodeGenerator._write_files`.  The attempt to open and write one file
(the `try` block of the source) is the oracle `writeOk`; directory creation
is modelled as non-failing (it sits outside the `try` in the source).  A
failed write is logged and skipped; a successful one appends its full path. -/
def writeFiles (writeOk : Str → Bool) (files : List (Str × Str))
    (outputDir : Str) : List Str :=
  files.foldl (fun filePaths kv =>
    let fullPath := joinPath outputDir kv.1
    if writeOk fullPath then filePaths ++ [fullPath] else filePaths) []

/-! ## Test Invoker (`CodeGenerator._test_code`) -/

/-- Outcome of one `logger.command` subprocess call: exit success plus the
captured standard output and standard error.  (`logger.command` never
raises: its own exception path returns `success = false` with the message
in `stderr`.) -/
structure CmdResult where
  success : Bool
  stdout : Str
  stderr : Str

/-- `"test" in os.path.basename(path).lower()`. -/
def isTestFile (path : Str) : Bool :=
  strContains (pyLower (basename path)) ("test".data)

/-- `CodeGenerator._test_code`.  `setupRes` and `testRes` are the oracle
outcomes of the dependency-setup and pytest `logger.command` calls;
`raised` is the message of an exception escaping the `try` block (caught by
the source's `except` clause), when one is raised. -/
def testCode (filePaths : List Str) (setupRes testRes : CmdResult)
    (raised : Option Str) : Bool × Option Str :=
  let testFiles := filePaths.filter isTestFile
  if testFiles.isEmpty then (false, some ("No test files were generated".data))
  else
    match raised with
    | some msg => (false, some msg)
    | none =>
      if !setupRes.success then
        (false, some ("Dependency installation failed: ".data ++ setupRes.stderr))
      else if testRes.success then (true, none)
      else
        (false, some (if testRes.stderr.isEmpty then testRes.stdout else testRes.stderr))

/-! ## Refinement Prompt Builder (`CodeGenerator._update_prompt_with_error`) -/

/-- The fixed failure banner prepended to the refinement context. -/
def errorBanner (e : Str) : Str :=
  ("\n\n# Previous Error\nThe previous code generation attempt failed with the following error:\n```\n").data
    ++ e ++ ("\n```\nPlease fix the issues and regenerate the code.").data

/-- The files whose basename occurs as a literal substring of the error,
in dict-iteration (insertion) order. -/
def problematicFiles (files : List (Str × Str)) (e : Str) : List (Str × Str) :=
  files.filter (fun kv => strContains e (basename kv.1))

/-- The `# Problematic Files` section (empty when no file was implicated). -/
def renderProblematicSection (problematic : List (Str × Str)) : Str :=
  if problematic.isEmpty then []
  else
    ("\n\n# Problematic Files\n").data
      ++ (problematic.map (fun kv =>
          ("\nThe problematic file was `").data ++ kv.1 ++ ("`:\n```python\n").data
            ++ kv.2 ++ ("\n```\n").data)).flatten

/-- Trim the freshly captured snapshot to `MAX_REPO_FILES = 5` entries by an
ascending stable sort on content length and taking the first five —
keeping the smallest files, discarding the largest.  (Python's `sorted` is
stable, which this stable merge sort mirrors.) -/
def trimSnapshot (snapshot : List (Str × Str)) : List (Str × Str) :=
  if snapshot.length > 5 then
    (snapshot.mergeSort (fun x y => decide (x.2.length ≤ y.2.length))).take 5
  else snapshot

/-- The `# Repository Context` section in Qwen format (empty when the
collected snapshot is empty, mirroring the source's `if repo_files:`). -/
def renderRepoSection (repoName : Str) (fs : List (Str × Str)) : Str :=
  if fs.isEmpty then []
  else
    ("\n\n# Repository Context\n<|repo_name|>").data ++ repoName
      ++ '\n' :: (fs.map (fun kv =>
          ("<|file_sep|>").data ++ kv.1 ++ '\n' :: kv.2 ++ ['\n'])).flatten

/-- `CodeGenerator._update_prompt_with_error`.  `snapshot` is the oracle
result of the fresh `_get_repository_files(output_dir)` call made inside
this function; `repoName` is the ambient working-directory name
(`os.path.basename(os.path.abspath("."))`). -/
def updatePromptWithError (repoName : Str) (prompt : Str) (error : Option Str)
    (files : List (Str × Str)) (snapshot : List (Str × Str)) : Str :=
  match error with
  | none => prompt
  | some e =>
    if e.isEmpty then prompt
    else
      let ec1 := errorBanner e
      let problematic := problematicFiles files e
      let ec2 := ec1 ++ renderProblematicSection problematic
      let ec3 :=
        if problematic.isEmpty || decide (e.length > 1000) then
          ec2 ++ renderRepoSection repoName (trimSnapshot snapshot)
        else ec2
      prompt ++ ec3

/-- Concrete six-file snapshot used to witness the refinement-prompt theorem. -/
def witnessSnapshot : List (Str × Str) :=
  [("a.py".data, "aaaaaa".data), ("b.py".data, "bb".data),
   ("c.py".data, "cccc".data), ("d.py".data, "d".data),
   ("e.py".data, "eeeeeeee".data), ("f.py".data, "fff".data)]

/-! ## Repository Snapshotter (`CodeGenerator._get_repository_files`)

The filesystem walk is the oracle: a candidate file is an entry carrying its
relative path, its `os.path.getsize` result, and its decoded text content
(`none` when the file cannot be decoded as text).  `priorityFiles` is the
deduplicated priority-pattern pass list, `walkFiles` the remaining walk
order; exclusion filtering happens during enumeration and is part of the
oracle. -/

/-- One candidate file seen by the walk. -/
structure FileEntry where
  relPath : Str
  size : Nat
  content : Option Str

/-- Total number of content characters held in a snapshot. -/
def sumContents (m : List (Str × Str)) : Nat :=
  (m.map (fun kv => kv.2.length)).sum

/-- One collection pass of `_get_repository_files` over candidate files, with
state `(repo_files, current_total_size)`.  `checkDup` distinguishes the fill
pass (which skips paths already captured) from the priority pass.  A
candidate is skipped when it exceeds the 50 KB per-file ceiling, cannot be
decoded, or would push the running total past `MAX_TOTAL_SIZE = 20000`; the
pass stops once `MAX_FILES = 20` files or the size cap is reached. -/
def collectPass (checkDup : Bool) :
    List FileEntry → List (Str × Str) × Nat → List (Str × Str) × Nat
  | [], st => st
  | e :: rest, (repo, total) =>
    if repo.length ≥ 20 ∨ total ≥ 20000 then (repo, total)
    else if checkDup && keyMem repo e.relPath then
      collectPass checkDup rest (repo, total)
    else if e.size > 1024 * 50 then collectPass checkDup rest (repo, total)
    else
      match e.content with
      | none => collectPass checkDup rest (repo, total)
      | some c =>
        if total + c.length > 20000 then collectPass checkDup rest (repo, total)
        else collectPass checkDup rest (dictInsert repo e.relPath c, total + c.length)

/-- `CodeGenerator._get_repository_files`: the priority pass, then — when
both caps leave room — the fill pass over the remaining walk order. -/
def getRepositoryFiles (priorityFiles walkFiles : List FileEntry) :
    List (Str × Str) × Nat :=
  let st1 := collectPass false priorityFiles ([], 0)
  if st1.1.length < 20 ∧ st1.2 < 20000 then collectPass true walkFiles st1 else st1

/-- Walk oracle used to witness the snapshotter theorem: one small readable
file and one million-byte file (skipped by the per-file ceiling). -/
def witnessWalkEntries : List FileEntry :=
  [⟨"small.txt".data, 10, some ("aaaaaaaaaa").data⟩,
   ⟨"huge.bin".data, 1000000, none⟩]

/-! ## Context Budgeter (`APIClient.generate_code`, context-bounding steps)

`available_tokens` is the token budget left after the system prompt, the
main prompt and the 500-token reserve (an `int`, so modelled as `Int`);
`ESTIMATED_CHAR_PER_TOKEN = 4`, so the character budget is
`availableTokens * 4` and the estimated token count of a string is its
length divided by 4. -/

/-- Worker for `strFind`. -/
def strFindAux (needle : Str) : Str → Nat → Option Nat
  | [], i => if needle.isPrefixOf [] then some i else none
  | c :: t, i => if needle.isPrefixOf (c :: t) then some i else strFindAux needle t (i + 1)

/-- Python `hay.find(needle)`: index of the first occurrence, `-1` if absent. -/
def strFind (hay needle : Str) : Int :=
  match strFindAux needle hay 0 with
  | some i => (i : Int)
  | none => -1

/-- Rebuild the `<|file_sep|>`-delimited file segments from the lines of the
files part, as the source's loop does: a separator line starts a new segment,
any other line is appended; every line regains a trailing newline; a
non-empty running segment is pushed when a new one starts and at the end. -/
def buildSepFiles : List Str → Str → List Str → List Str
  | [], cur, acc => if cur.isEmpty then acc else acc ++ [cur]
  | l :: rest, cur, acc =>
    if ("<|file_sep|>").data.isPrefixOf l then
      buildSepFiles rest (l ++ ['\n']) (if cur.isEmpty then acc else acc ++ [cur])
    else buildSepFiles rest (cur ++ l ++ ['\n']) acc

/-- `sum(len(files[j]) for j in included)`. -/
def includedSum (files : List Str) (inc : List Nat) : Nat :=
  (inc.map (fun j => ((files.get? j).getD []).length)).sum

/-- The removal loop of the source: walk the size-sorted index list and,
while the included total still exceeds the budget, remove the next (largest)
index from the included set.  The Python `set` of indices is modelled as the
ascending index list (`remove` is `erase`; the final `sorted(included)` is
then the list itself). -/
def removeLargest (files : List Str) (budget : Int) :
    List (Nat × Nat) → List Nat → List Nat
  | [], inc => inc
  | (i, _) :: rest, inc =>
    if (includedSum files inc : Int) ≤ budget then inc
    else removeLargest files budget rest (inc.erase i)

/-- `file_lengths.sort(key=lambda x: x[1], reverse=True)`: Python's sort is
stable, so on the index-distinct `enumerate` pairs it coincides with sorting
by this total lexicographic order — descending length, ties by ascending
original index (a stable sort, so the result is the same list). -/
def sortPairsDesc (pairs : List (Nat × Nat)) : List (Nat × Nat) :=
  List.insertionSort (fun x y => y.2 < x.2 ∨ (x.2 = y.2 ∧ x.1 ≤ y.1)) pairs

/-- The structured-repository-context truncation branch of `generate_code`
(the body guarded by `repo_name_end > 0`): keep the `<|repo_name|>` header
part, split the remainder into file segments, remove the largest segments
until the remainder fits `available_tokens * 4 - len(repo_name_part)`, and
re-emit the kept segments in original order. -/
def truncateRepoContext (repoContext : Str) (availableTokens : Int) : Str :=
  let repoNameEnd := strFind repoContext ("\n<|file_sep|>").data
  if repoNameEnd > 0 then
    let n := repoNameEnd.toNat + 1
    let repoNamePart := repoContext.take n
    let filesPart := repoContext.drop n
    let files := buildSepFiles (pySplitlines filesPart) [] []
    let pairs := (List.range files.length).map
      (fun i => (i, ((files.get? i).getD []).length))
    let sortedPairs := sortPairsDesc pairs
    let remaining : Int := availableTokens * 4 - repoNamePart.length
    let included := removeLargest files remaining sortedPairs
      (List.range files.length)
    repoNamePart ++ (included.map (fun i => (files.get? i).getD [])).flatten
  else repoContext

/-- Python slice `l[:k]` for an `int` bound `k` (a negative bound counts from
the end). -/
def pySliceTo (l : Str) (k : Int) : Str :=
  if 0 ≤ k then l.take k.toNat else l.take ((l.length : Int) + k).toNat

/-- The `if repo_context and len(repo_context) > available_tokens * 4:` step. -/
def boundRepo (repoContext : Str) (availableTokens : Int) : Str :=
  if repoContext ≠ [] ∧ (repoContext.length : Int) > availableTokens * 4 then
    truncateRepoContext repoContext availableTokens
  else repoContext

/-- Combining the repository context and the error context into
`combined_context`. -/
def combineContexts (rc context : Str) : Str :=
  if context ≠ [] then
    (if rc ≠ [] then rc ++ ("\n\n").data ++ context else context)
  else rc

/-- The final `combined_context` hard-truncation step of `generate_code`. -/
def boundCombined (combined : Str) (availableTokens : Int) : Str :=
  if combined ≠ [] ∧ (combined.length : Int) > availableTokens * 4 then
    pySliceTo combined (availableTokens * 4)
  else combined

/-- The full context-bounding pipeline of `generate_code`: the context string
actually sent to the model as the combined user context message. -/
def generateCodeContext (repoContext context : Str) (availableTokens : Int) : Str :=
  boundCombined (combineContexts (boundRepo repoContext availableTokens) context)
    availableTokens

/-- Modelled from the spec: remove segments in the given removal order
(descending character length, ties by original position) until the running
total fits the budget; the removed indices are a prefix of that order. -/
def specDropUntilFit (files : List Str) (budget : Int) :
    List (Nat × Nat) → Int → List Nat
  | [], _ => []
  | (i, _) :: rest, total =>
    if total ≤ budget then []
    else i :: specDropUntilFit files budget rest
        (total - ((files.get? i).getD []).length)

/-- The `repo_name_part` header kept by the structured truncation. -/
def repoNamePartOf (r : Str) : Str :=
  r.take ((strFind r ("\n<|file_sep|>").data).toNat + 1)

/-- The file segments of a structured repository context. -/
def sepFilesOf (r : Str) : List Str :=
  buildSepFiles
    (pySplitlines (r.drop ((strFind r ("\n<|file_sep|>").data).toNat + 1))) [] []

/-- `enumerate`-style (index, length) pairs of the file segments. -/
def pairsOf (files : List Str) : List (Nat × Nat) :=
  (List.range files.length).map (fun i => (i, ((files.get? i).getD []).length))

/-- The indices removed by the spec-side greedy selection. -/
def removedOf (r : Str) (a : Int) : List Nat :=
  specDropUntilFit (sepFilesOf r) (a * 4 - (repoNamePartOf r).length)
    (sortPairsDesc (pairsOf (sepFilesOf r)))
    (includedSum (sepFilesOf r) (List.range (sepFilesOf r).length))

/-- The kept indices, in original (ascending) order. -/
def keptOf (r : Str) (a : Int) : List Nat :=
  (List.range (sepFilesOf r).length).filter
    (fun j => decide (j ∉ removedOf r a))

/-- Concrete structured repository context used to witness the truncation
theorem: a one-character repo name and two file segments of lengths 42
and 19. -/
def witnessRepoContext : Str :=
  ("x\n<|file_sep|>a.py\naaaaaaaaaaaaaaaaaaaaaaaa\n<|file_sep|>b.py\nb\n").data

/-! ## Iteration Controller (`CodeGenerator.generate`)

One session.  Everything the loop consumes from the outside world is an
oracle indexed by the 0-based iteration index: the model's response to the
iteration's prompt (empty string covering both an empty reply and an
exception in `_generate_code`), the per-path write success, the two
subprocess outcomes, a possible raised exception in `_test_code`, and the
fresh snapshot taken inside `_update_prompt_with_error`.  The initial
repository snapshot (`_get_repository_files` before the loop) is a fixed
field. -/

/-- The session environment of one `generate` call. -/
structure GenEnv where
  initialSnapshot : List (Str × Str)
  refineSnapshot : Nat → List (Str × Str)
  response : Nat → Str
  writeOk : Nat → Str → Bool
  setupRes : Nat → CmdResult
  testRes : Nat → CmdResult
  raised : Nat → Option Str
  repoName : Str
  initialPrompt : Str
  outputDir : Str

/-- Why the iteration loop ended. -/
inductive EndReason
  | emptyResponse
  | noFiles
  | noWrites
  | passed
  | exhausted
deriving DecidableEq, Repr

/-- The observable outcome of a session: the returned flag, the final
`current_iteration` and `last_error`, why the loop ended, and the repository
context handed to each `_generate_code` call, in order. -/
structure GenResult where
  success : Bool
  currentIteration : Nat
  lastError : Option Str
  endReason : EndReason
  genRepoArgs : List (List (Str × Str))

/-- The `for iteration in range(max_iterations)` loop of
`CodeGenerator.generate`, with `fuel` iterations left: generate (recording
the repository context passed to the model), extract, write, test; break on
empty response, empty extraction, empty write list, or a passing verdict;
otherwise store the diagnostic as `last_error`, refine the prompt and
continue.  `repo_files` is bound once before the loop and threaded through
unchanged. -/
def generateLoop (env : GenEnv) (repoFiles : List (Str × Str)) :
    Nat → Nat → Str → Option Str → List (List (Str × Str)) → GenResult
  | 0, iteration, _prompt, lastError, calls =>
    ⟨false, iteration, lastError, EndReason.exhausted, calls⟩
  | fuel + 1, iteration, prompt, lastError, calls =>
    let currentIteration := iteration + 1
    let calls2 := calls ++ [repoFiles]
    let codeOutput := env.response iteration
    if codeOutput.isEmpty then
      ⟨false, currentIteration, lastError, EndReason.emptyResponse, calls2⟩
    else
      let extracted := extractFiles codeOutput
      if extracted.isEmpty then
        ⟨false, currentIteration, lastError, EndReason.noFiles, calls2⟩
      else
        let filePaths := writeFiles (env.writeOk iteration) extracted env.outputDir
        if filePaths.isEmpty then
          ⟨false, currentIteration, lastError, EndReason.noWrites, calls2⟩
        else
          let verdict := testCode filePaths (env.setupRes iteration)
            (env.testRes iteration) (env.raised iteration)
          if verdict.1 then
            ⟨true, currentIteration, lastError, EndReason.passed, calls2⟩
          else
            generateLoop env repoFiles fuel (iteration + 1)
              (updatePromptWithError env.repoName prompt verdict.2 extracted
                (env.refineSnapshot iteration))
              verdict.2 calls2

/-- `CodeGenerator.generate`: reset session state, compute the initial
prompt (opaque here), capture the repository snapshot once, then run the
loop. -/
def generate (env : GenEnv) (maxIterations : Nat) : GenResult :=
  generateLoop env env.initialSnapshot maxIterations 0 env.initialPrompt none []

/-- A session whose model returns an empty response at every iteration. -/
def emptyResponseEnv : GenEnv where
  initialSnapshot := [(("f.py").data, ("x = 1").data)]
  refineSnapshot := fun _ => []
  response := fun _ => []
  writeOk := fun _ _ => true
  setupRes := fun _ => ⟨true, [], []⟩
  testRes := fun _ => ⟨true, [], []⟩
  raised := fun _ => none
  repoName := ("autocoder").data
  initialPrompt := ("prompt").data
  outputDir := ("/out").data

end Autocoder

/-! # Theorems -/

namespace Autocoder

/-! ## Round trip between `joinNL` and `pySplitlines` -/

theorem pySplitlinesAux_newline (rest : Str) (cur : Str) :
    pySplitlinesAux ('\n' :: rest) cur = cur :: pySplitlinesAux rest [] := by
  cases rest <;> rfl

theorem pySplitlinesAux_cons_clean (c : Char) (hc : pyIsLineBreak c = false)
    (rest cur : Str) :
    pySplitlinesAux (c :: rest) cur = pySplitlinesAux rest (cur ++ [c]) := by
  rw [pySplitlinesAux.eq_def]
  split
  · simp_all
  · rename_i h
    simp [pyIsLineBreak] at hc
    simp_all
  · rename_i cur' c' rest' hno heq
    injection heq with h1 h2
    subst h1; subst h2
    simp [hc]

theorem pySplitlinesAux_clean (l : Str) (h : noBreak l = true) (cur : Str) :
    pySplitlinesAux l cur = if (cur ++ l).isEmpty then [] else [cur ++ l] := by
  induction l generalizing cur with
  | nil => simp [pySplitlinesAux]
  | cons c l ih =>
    simp only [noBreak, List.all_cons, Bool.and_eq_true, Bool.not_eq_true'] at h
    rw [pySplitlinesAux_cons_clean c h.1, ih (by simpa [noBreak] using h.2)]
    simp

theorem pySplitlinesAux_append_newline (l : Str) (h : noBreak l = true)
    (rest : Str) (cur : Str) :
    pySplitlinesAux (l ++ '\n' :: rest) cur = (cur ++ l) :: pySplitlinesAux rest [] := by
  induction l generalizing cur with
  | nil => simpa using pySplitlinesAux_newline rest cur
  | cons c l ih =>
    simp only [noBreak, List.all_cons, Bool.and_eq_true, Bool.not_eq_true'] at h
    rw [List.cons_append, pySplitlinesAux_cons_clean c h.1,
      ih (by simpa [noBreak] using h.2)]
    simp

theorem pySplitlines_joinNL (ls : List Str)
    (h : ∀ l ∈ ls, noBreak l = true) (hlast : ls.getLast? ≠ some []) :
    pySplitlines (joinNL ls) = ls := by
  induction ls with
  | nil => rfl
  | cons l rest ih =>
    cases rest with
    | nil =>
      have hl : noBreak l = true := h l (by simp)
      have hne : l ≠ [] := by
        intro hnil
        exact hlast (by simp [hnil])
      simp only [joinNL, pySplitlines]
      rw [pySplitlinesAux_clean l hl []]
      simp [hne]
    | cons l' rest' =>
      have hl : noBreak l = true := h l (by simp)
      simp only [joinNL, pySplitlines]
      rw [pySplitlinesAux_append_newline l hl _ []]
      have := ih (fun x hx => h x (by simp [hx]))
        (by simpa [List.getLast?_cons_cons] using hlast)
      simp only [pySplitlines] at this
      simp [this]

/-! ## Stepping the extractor over a well-formed response -/

theorem isPrefixOf_append_self (l₁ l₂ : Str) : l₁.isPrefixOf (l₁ ++ l₂) = true := by
  induction l₁ with
  | nil => simp [List.isPrefixOf]
  | cons c l ih => simp [List.isPrefixOf, ih]

theorem mem_markerPrefixes (m : Str) (hm : markerPrefixes.contains m = true) :
    m = "```file:".data ∨ m = "```python:".data ∨ m = "```filepath:".data := by
  have h : m ∈ markerPrefixes := by simpa using hm
  simpa [markerPrefixes] using h

theorem isFileMarker_marker_append (m raw : Str)
    (hm : markerPrefixes.contains m = true) : isFileMarker (m ++ raw) = true := by
  rcases mem_markerPrefixes m hm with rfl | rfl | rfl <;>
    simp [isFileMarker, markerPrefixes, isPrefixOf_append_self]

theorem afterChar_marker_append (m raw : Str)
    (hm : markerPrefixes.contains m = true) : afterChar ':' (m ++ raw) = some raw := by
  rcases mem_markerPrefixes m hm with rfl | rfl | rfl <;> rfl

theorem parseMarkerPath_marker_append (m raw : Str)
    (hm : markerPrefixes.contains m = true) :
    parseMarkerPath (m ++ raw) = some (pyStrip (rstripChar '`' (pyStrip raw))) := by
  simp [parseMarkerPath, afterChar_marker_append m raw hm]

theorem processLine_marker (acc : List (Str × Str)) (b : FileBlock)
    (hm : markerPrefixes.contains b.marker = true) :
    processLine ⟨none, [], acc⟩ (b.marker ++ b.rawPath)
      = ⟨some (parsedPath b), [], acc⟩ := by
  simp [processLine, isFileMarker_marker_append _ _ hm,
    parseMarkerPath_marker_append _ _ hm, parsedPath]

theorem foldl_processLine_content (ls : List Str)
    (h : ∀ l ∈ ls, contentLineOk l = true) (p : Str)
    (cont : List Str) (acc : List (Str × Str)) :
    List.foldl processLine ⟨some p, cont, acc⟩ ls = ⟨some p, cont ++ ls, acc⟩ := by
  induction ls generalizing cont with
  | nil => simp
  | cons l ls ih =>
    have hl := h l (by simp)
    simp only [contentLineOk, Bool.and_eq_true, Bool.not_eq_true'] at hl
    obtain ⟨⟨hnb, hmk⟩, hcl⟩ := hl
    have hstep : processLine ⟨some p, cont, acc⟩ l = ⟨some p, cont ++ [l], acc⟩ := by
      simp [processLine, hmk, hcl]
    rw [List.foldl_cons, hstep, ih (fun x hx => h x (by simp [hx]))]
    simp

theorem processLine_close (p : Str) (hp : p ≠ []) (cont : List Str)
    (hcont : cont ≠ []) (acc : List (Str × Str)) :
    processLine ⟨some p, cont, acc⟩ ("```".data)
      = ⟨none, [], dictInsert acc p (joinNL cont)⟩ := by
  have h1 : isFileMarker ("```".data) = false := by decide
  have h2 : (pyStrip ("```".data) == "```".data) = true := by decide
  simp [processLine, h1, h2, optTruthy, List.isEmpty_iff, hp, hcont]

theorem foldl_processLine_block (b : FileBlock) (hb : blockOk b = true)
    (acc : List (Str × Str)) :
    List.foldl processLine ⟨none, [], acc⟩ (renderBlock b)
      = ⟨none, [], dictInsert acc (parsedPath b) (joinNL b.content)⟩ := by
  simp only [blockOk, Bool.and_eq_true, Bool.not_eq_true', List.all_eq_true] at hb
  obtain ⟨⟨⟨⟨hm, hraw⟩, hcont⟩, hne⟩, hppne⟩ := hb
  have hp : parsedPath b ≠ [] := by
    intro h; rw [h] at hppne; simp at hppne
  have hcne : b.content ≠ [] := by
    intro h; rw [h] at hne; simp at hne
  rw [renderBlock, List.foldl_cons, processLine_marker acc b hm]
  rw [List.foldl_append, foldl_processLine_content b.content hcont _ [] acc]
  simp only [List.nil_append, List.foldl_cons, List.foldl_nil]
  rw [processLine_close _ hp _ hcne acc]

theorem foldl_processLine_blocks (bs : List FileBlock)
    (hok : ∀ b ∈ bs, blockOk b = true) (acc : List (Str × Str)) :
    List.foldl processLine ⟨none, [], acc⟩ ((bs.map renderBlock).flatten)
      = ⟨none, [],
          bs.foldl (fun m b => dictInsert m (parsedPath b) (joinNL b.content)) acc⟩ := by
  induction bs generalizing acc with
  | nil => simp
  | cons b bs ih =>
    simp only [List.map_cons, List.flatten_cons]
    rw [List.foldl_append, foldl_processLine_block b (hok b (by simp)) acc]
    rw [ih (fun x hx => hok x (by simp [hx])) _]
    simp

theorem keyMem_eq_false_iff (m : List (Str × Str)) (k : Str) :
    keyMem m k = false ↔ ∀ e ∈ m, e.1 ≠ k := by
  simp [keyMem, List.any_eq_true]

theorem keyMem_append_single (m : List (Str × Str)) (e : Str × Str) (k : Str) :
    keyMem (m ++ [e]) k = (keyMem m k || (e.1 == k)) := by
  simp [keyMem]

theorem dictInsert_fresh (m : List (Str × Str)) (k v : Str)
    (h : keyMem m k = false) : dictInsert m k v = m ++ [(k, v)] := by
  simp [dictInsert, h]

theorem dictFold_append (bs : List FileBlock) (acc : List (Str × Str))
    (hfresh : ∀ b ∈ bs, keyMem acc (parsedPath b) = false)
    (hnd : (bs.map parsedPath).Nodup) :
    bs.foldl (fun m b => dictInsert m (parsedPath b) (joinNL b.content)) acc
      = acc ++ bs.map (fun b => (parsedPath b, joinNL b.content)) := by
  induction bs generalizing acc with
  | nil => simp
  | cons b bs ih =>
    have hnd' := (by simpa [List.nodup_cons] using hnd :
      parsedPath b ∉ bs.map parsedPath ∧ (bs.map parsedPath).Nodup)
    simp only [List.foldl_cons]
    rw [dictInsert_fresh _ _ _ (hfresh b (by simp))]
    rw [ih (acc ++ [(parsedPath b, joinNL b.content)]) ?_ hnd'.2]
    · simp
    · intro x hx
      rw [keyMem_append_single]
      have h1 : keyMem acc (parsedPath x) = false := hfresh x (by simp [hx])
      have h2 : (parsedPath b == parsedPath x) = false := by
        refine beq_eq_false_iff_ne.mpr ?_
        intro he
        exact hnd'.1 (he ▸ List.mem_map_of_mem parsedPath hx)
      simp [h1, h2]

theorem renderBlock_noBreak (b : FileBlock) (hb : blockOk b = true) :
    ∀ l ∈ renderBlock b, noBreak l = true := by
  simp only [blockOk, Bool.and_eq_true, Bool.not_eq_true', List.all_eq_true] at hb
  obtain ⟨⟨⟨⟨hm, hraw⟩, hcont⟩, _⟩, _⟩ := hb
  intro l hl
  simp only [renderBlock, List.mem_cons, List.mem_append, List.mem_singleton,
    List.not_mem_nil, or_false] at hl
  rcases hl with rfl | hl | rfl
  · have hmb : noBreak b.marker = true := by
      rcases mem_markerPrefixes b.marker hm with h | h | h <;> rw [h] <;> decide
    simp only [noBreak, List.all_append] at *
    simp [hmb, hraw]
  · have := hcont l hl
    simp only [contentLineOk, Bool.and_eq_true] at this
    exact this.1.1
  · decide

theorem flatten_render_getLast (bs : List FileBlock) :
    bs = [] ∨ ((bs.map renderBlock).flatten).getLast? = some ("```".data) := by
  rcases List.eq_nil_or_concat bs with rfl | ⟨bs₀, b, rfl⟩
  · exact Or.inl rfl
  · right
    simp only [List.concat_eq_append, List.map_append, List.map_cons, List.map_nil,
      List.flatten_append, List.flatten_cons, List.flatten_nil, List.append_nil]
    rw [List.getLast?_append]
    have : (renderBlock b).getLast? = some ("```".data) := by
      show ((b.marker ++ b.rawPath) :: (b.content ++ ["```".data])).getLast? = _
      rw [show (b.marker ++ b.rawPath) :: (b.content ++ ["```".data])
          = ((b.marker ++ b.rawPath) :: b.content) ++ ["```".data] by simp]
      exact List.getLast?_concat _
    rw [this]
    rfl

/-- Every line of a well-formed response is free of line breaks. -/
theorem renderBlocks_noBreak (bs : List FileBlock)
    (hok : ∀ b ∈ bs, blockOk b = true) :
    ∀ l ∈ (bs.map renderBlock).flatten, noBreak l = true := by
  intro l hl
  rw [List.mem_flatten] at hl
  obtain ⟨ls, hls, hmem⟩ := hl
  rw [List.mem_map] at hls
  obtain ⟨b, hb, rfl⟩ := hls
  exact renderBlock_noBreak b (hok b hb) l hmem

/-- Shared kernel for the extraction theorems: on a response made of
well-formed fences (non-empty content, non-empty pairwise-distinct parsed
paths), the extractor returns exactly the fences, in order. -/
theorem extract_renderResponse (bs : List FileBlock)
    (hok : ∀ b ∈ bs, blockOk b = true)
    (hnd : (bs.map parsedPath).Nodup) :
    extractFiles (renderResponse bs)
      = bs.map (fun b => (parsedPath b, joinNL b.content)) := by
  unfold extractFiles renderResponse
  rw [pySplitlines_joinNL _ (renderBlocks_noBreak bs hok) ?_]
  · unfold extractFilesLines
    rw [foldl_processLine_blocks bs hok []]
    rw [dictFold_append bs [] (fun b _ => rfl) hnd]
    simp
  · rcases flatten_render_getLast bs with h | h
    · simp [h]
    · rw [h]
      simp

/-- Reduce `extractFilesLines` once the final scanner state is known. -/
theorem extractFilesLines_final (lines : List Str) (st : ExtractState)
    (h : lines.foldl processLine ⟨none, [], []⟩ = st) :
    extractFilesLines lines =
      match st.currentFile with
      | some f =>
        if !f.isEmpty && !st.currentContent.isEmpty then
          dictInsert st.files f (joinNL st.currentContent)
        else st.files
      | none => st.files := by
  subst h; rfl

/-- C2 (amended): for every response consisting of `N` well-formed file
fences whose parsed paths are non-empty and pairwise distinct and whose
content is non-empty, `extract` returns a mapping with exactly `N` entries,
each keyed by the path parsed from its fence marker line with trailing fence
characters and whitespace stripped. -/
theorem extract_wellFormed_fences_exact (bs : List FileBlock)
    (hok : ∀ b ∈ bs, blockOk b = true)
    (hnd : (bs.map parsedPath).Nodup) :
    extractFiles (renderResponse bs)
        = bs.map (fun b => (parsedPath b, joinNL b.content)) ∧
      (extractFiles (renderResponse bs)).length = bs.length := by
  have h := extract_renderResponse bs hok hnd
  exact ⟨h, by rw [h]; simp⟩

/-- Witness for C2 at a concrete two-fence response. -/
theorem extract_wellFormed_fences_exact_witness :
    (∀ b ∈ witnessBlocks, blockOk b = true) ∧
      (witnessBlocks.map parsedPath).Nodup ∧
      (extractFiles (renderResponse witnessBlocks)
          = witnessBlocks.map (fun b => (parsedPath b, joinNL b.content)) ∧
        (extractFiles (renderResponse witnessBlocks)).length = witnessBlocks.length) :=
  ⟨by decide, by decide,
    extract_wellFormed_fences_exact witnessBlocks (by decide) (by decide)⟩

/-- C2 counterexample: two responses, each made of exactly two well-formed
file fences, on which `extract` does not return two entries — one has a
fence with empty content (which is never flushed), the other two fences
with the same path (last write wins in the result mapping). -/
theorem extract_fence_count_counterexample :
    (extractFiles (renderResponse cexEmptyContentBlocks)).length
        ≠ cexEmptyContentBlocks.length ∧
      (extractFiles (renderResponse cexDupPathBlocks)).length
        ≠ cexDupPathBlocks.length := by
  decide

/-- C9: `extract` applied to a response whose last file fence is opened but
never closed still returns that file's accumulated content — the open file is
flushed to the result map at end of input. -/
theorem extract_truncated_response (bs : List FileBlock) (b : FileBlock)
    (hok : ∀ x ∈ bs, blockOk x = true) (hb : blockOk b = true)
    (hlast : b.content.getLast? ≠ some [])
    (hnd : ((bs ++ [b]).map parsedPath).Nodup) :
    extractFiles (renderTruncated bs b)
      = (bs ++ [b]).map (fun x => (parsedPath x, joinNL x.content)) := by
  have hbfull := hb
  simp only [blockOk, Bool.and_eq_true, Bool.not_eq_true', List.all_eq_true] at hb
  obtain ⟨⟨⟨⟨hm, hraw⟩, hcont⟩, hne⟩, hppne⟩ := hb
  have hp : parsedPath b ≠ [] := by
    intro h; rw [h] at hppne; simp at hppne
  have hcne : b.content ≠ [] := by
    intro h; rw [h] at hne; simp at hne
  simp only [List.map_append, List.map_cons, List.map_nil, List.nodup_append,
    List.nodup_cons, List.not_mem_nil, not_false_iff, List.nodup_nil,
    List.mem_singleton, true_and, and_true] at hnd
  obtain ⟨hnd₁, hdisj⟩ := hnd
  have hfreshb : keyMem (bs.map fun x => (parsedPath x, joinNL x.content))
      (parsedPath b) = false := by
    rw [keyMem_eq_false_iff]
    intro e he
    rw [List.mem_map] at he
    obtain ⟨x, hx, rfl⟩ := he
    intro hcontra
    exact hdisj (List.mem_map_of_mem parsedPath hx) (by simpa using hcontra)
  have hfold : ((bs.map renderBlock).flatten ++ renderOpenBlock b).foldl
        processLine ⟨none, [], []⟩
      = ⟨some (parsedPath b), b.content,
          bs.map (fun x => (parsedPath x, joinNL x.content))⟩ := by
    rw [List.foldl_append, foldl_processLine_blocks bs hok [],
      dictFold_append bs [] (fun x _ => rfl) hnd₁]
    rw [renderOpenBlock, List.foldl_cons,
      processLine_marker _ b hm,
      foldl_processLine_content b.content hcont _ [] _]
    simp
  have h1 : (parsedPath b).isEmpty = false := by
    rw [Bool.eq_false_iff]; intro hh; exact hp (List.isEmpty_iff.mp hh)
  have h2 : b.content.isEmpty = false := by
    rw [Bool.eq_false_iff]; intro hh; exact hcne (List.isEmpty_iff.mp hh)
  unfold extractFiles renderTruncated
  rw [pySplitlines_joinNL _ ?_ ?_]
  · rw [extractFilesLines_final _ _ hfold]
    simp [h1, h2, dictInsert_fresh _ _ _ hfreshb]
  · intro l hl
    rw [List.mem_append] at hl
    rcases hl with hl | hl
    · exact renderBlocks_noBreak bs hok l hl
    · simp only [renderOpenBlock, List.mem_cons] at hl
      rcases hl with rfl | hl
      · have hmb : noBreak b.marker = true := by
          rcases mem_markerPrefixes b.marker hm with h | h | h <;> rw [h] <;> decide
        simp only [noBreak, List.all_append] at *
        simp [hmb, hraw]
      · have := hcont l hl
        simp only [contentLineOk, Bool.and_eq_true] at this
        exact this.1.1
  · have hsome : b.content.getLast?.isSome := List.getLast?_isSome.mpr hcne
    obtain ⟨z, hz⟩ := Option.isSome_iff_exists.mp hsome
    have hzne : z ≠ [] := fun hcontra => hlast (by rw [hz, hcontra])
    rw [List.getLast?_append]
    have hopen : (renderOpenBlock b).getLast? = some z := by
      rw [renderOpenBlock, show (b.marker ++ b.rawPath) :: b.content
          = [b.marker ++ b.rawPath] ++ b.content by simp, List.getLast?_append, hz]
      rfl
    rw [hopen]
    have hor : (some z).or ((bs.map renderBlock).flatten).getLast? = some z := rfl
    rw [hor]
    simp [hzne]

/-- Witness for C9 at a concrete response with one closed and one unclosed fence. -/
theorem extract_truncated_response_witness :
    (∀ x ∈ [witnessClosedBlock], blockOk x = true) ∧
      blockOk witnessOpenBlock = true ∧
      witnessOpenBlock.content.getLast? ≠ some [] ∧
      (([witnessClosedBlock] ++ [witnessOpenBlock]).map parsedPath).Nodup ∧
      extractFiles (renderTruncated [witnessClosedBlock] witnessOpenBlock)
        = (([witnessClosedBlock] ++ [witnessOpenBlock]).map
            (fun x => (parsedPath x, joinNL x.content))) :=
  ⟨by decide, by decide, by decide, by decide,
    extract_truncated_response [witnessClosedBlock] witnessOpenBlock
      (by decide) (by decide) (by decide) (by decide)⟩

/-! ## File Writer -/

theorem writeFiles_foldl_general (writeOk : Str → Bool) (outputDir : Str)
    (files : List (Str × Str)) (acc : List Str) :
    files.foldl (fun filePaths kv =>
        let fullPath := joinPath outputDir kv.1
        if writeOk fullPath then filePaths ++ [fullPath] else filePaths) acc
      = acc ++ (files.map (fun kv => joinPath outputDir kv.1)).filter writeOk := by
  induction files generalizing acc with
  | nil => simp
  | cons kv files ih =>
    cases h : writeOk (joinPath outputDir kv.1) with
    | true => simp [List.foldl_cons, List.filter_cons, h, ih]
    | false => simp [List.foldl_cons, List.filter_cons, h, ih]

/-- C5: `_write_files` skips a file whose write fails and keeps writing the
remaining files; the returned list is exactly the full paths of the files
whose write succeeded, in order (a partial list on partial failure). -/
theorem writeFiles_returns_successful_paths (writeOk : Str → Bool)
    (files : List (Str × Str)) (outputDir : Str) :
    writeFiles writeOk files outputDir
      = (files.map (fun kv => joinPath outputDir kv.1)).filter writeOk := by
  unfold writeFiles
  simpa using writeFiles_foldl_general writeOk outputDir files []

/-! ## Test Invoker -/

/-- C7: the diagnostic of a test verdict is `none` exactly when the tests
passed; whenever `passed = false` the diagnostic is a string; and for a
failed test run it is the captured standard error when non-empty, else the
standard output. -/
theorem testCode_diagnostic (filePaths : List Str) (setupRes testRes : CmdResult)
    (raised : Option Str) :
    ((testCode filePaths setupRes testRes raised).2 = none
        ↔ (testCode filePaths setupRes testRes raised).1 = true) ∧
      ((testCode filePaths setupRes testRes raised).1 = false
        → ∃ d, (testCode filePaths setupRes testRes raised).2 = some d) ∧
      ((filePaths.filter isTestFile).isEmpty = false → raised = none
        → setupRes.success = true → testRes.success = false
        → (testCode filePaths setupRes testRes raised).2
            = some (if testRes.stderr.isEmpty then testRes.stdout else testRes.stderr)) := by
  unfold testCode
  rcases raised with _ | msg <;>
    cases hb : (filePaths.filter isTestFile).isEmpty <;>
      cases hs : setupRes.success <;>
        cases ht : testRes.success <;>
          simp [hb, hs, ht]

/-- Witness for C7: one failing pytest run with non-empty standard error. -/
theorem testCode_diagnostic_witness :
    (testCode ["/out/test_app.py".data] ⟨true, [], []⟩
        ⟨false, "collected 1 item".data, "assert failed".data⟩ none).2
      = some (if ("assert failed".data : Str).isEmpty
          then ("collected 1 item".data : Str) else "assert failed".data) :=
  (testCode_diagnostic ["/out/test_app.py".data] ⟨true, [], []⟩
      ⟨false, "collected 1 item".data, "assert failed".data⟩ none).2.2
    (by decide) rfl rfl rfl

/-! ## Refinement Prompt Builder -/

/-- C6: with a non-empty diagnostic, the refinement prompt appends the fresh
repository snapshot exactly when no previous file's basename occurs in the
diagnostic or the diagnostic exceeds 1000 characters; the appended snapshot
is trimmed to at most five files by a stable ascending sort on content
length, keeping the smallest files and discarding the largest first. -/
theorem updatePrompt_repo_section (repoName prompt e : Str)
    (files snapshot : List (Str × Str)) (he : e ≠ []) :
    updatePromptWithError repoName prompt (some e) files snapshot
        = prompt ++ errorBanner e
            ++ renderProblematicSection (problematicFiles files e)
            ++ (if (problematicFiles files e).isEmpty || decide (e.length > 1000)
                then renderRepoSection repoName (trimSnapshot snapshot) else []) ∧
      (trimSnapshot snapshot).length ≤ 5 ∧
      (snapshot.length > 5 →
        trimSnapshot snapshot
            = (snapshot.mergeSort (fun x y => decide (x.2.length ≤ y.2.length))).take 5 ∧
          (snapshot.mergeSort (fun x y => decide (x.2.length ≤ y.2.length))).Perm snapshot ∧
          ∀ x ∈ (snapshot.mergeSort (fun x y => decide (x.2.length ≤ y.2.length))).take 5,
            ∀ y ∈ (snapshot.mergeSort (fun x y => decide (x.2.length ≤ y.2.length))).drop 5,
              x.2.length ≤ y.2.length) := by
  have hie : e.isEmpty = false := by
    rw [Bool.eq_false_iff]; intro hh; exact he (List.isEmpty_iff.mp hh)
  refine ⟨?_, ?_, ?_⟩
  · cases hcond : ((problematicFiles files e).isEmpty || decide (e.length > 1000)) with
    | true => simp [updatePromptWithError, hie, hcond, List.append_assoc]
    | false => simp [updatePromptWithError, hie, hcond, List.append_assoc]
  · unfold trimSnapshot
    split
    · simp
    · rename_i h
      omega
  · intro h
    have hperm := List.mergeSort_perm snapshot (fun x y => decide (x.2.length ≤ y.2.length))
    refine ⟨by simp [trimSnapshot, h], hperm, ?_⟩
    have hsorted := @List.sorted_mergeSort (Str × Str)
      (fun x y => decide (x.2.length ≤ y.2.length))
      (fun a b c hab hbc => by
        simp only [decide_eq_true_eq] at *
        omega)
      (fun a b => by
        simp only [Bool.or_eq_true, decide_eq_true_eq]
        omega) snapshot
    have hsplit := List.take_append_drop 5
      (snapshot.mergeSort (fun x y => decide (x.2.length ≤ y.2.length)))
    rw [← hsplit] at hsorted
    have hrel := (List.pairwise_append.mp hsorted).2.2
    intro x hx y hy
    have hxy := hrel x hx y hy
    simpa using hxy

/-- Witness for C6 at a six-file snapshot and empty previous-file set. -/
theorem updatePrompt_repo_section_witness :
    ("boom".data : Str) ≠ [] ∧ (trimSnapshot witnessSnapshot).length ≤ 5 :=
  ⟨by decide,
    (updatePrompt_repo_section ("autocoder").data ("P").data ("boom").data
        [] witnessSnapshot (by decide)).2.1⟩

/-! ## Repository Snapshotter -/

theorem dictInsert_length_le (m : List (Str × Str)) (k v : Str) :
    (dictInsert m k v).length ≤ m.length + 1 := by
  unfold dictInsert
  split
  · simp
  · simp

theorem mem_dictInsert (m : List (Str × Str)) (k v : Str) (kv : Str × Str)
    (h : kv ∈ dictInsert m k v) : kv ∈ m ∨ kv = (k, v) := by
  unfold dictInsert at h
  split at h
  · rw [List.mem_map] at h
    obtain ⟨p, hp, heq⟩ := h
    by_cases hb : (p.1 == k) = true
    · rw [hb] at heq
      simp at heq
      exact Or.inr heq.symm
    · rw [Bool.eq_false_iff.mpr hb] at heq
      simp at heq
      exact Or.inl (heq ▸ hp)
  · rw [List.mem_append, List.mem_singleton] at h
    exact h

theorem keys_dictInsert (m : List (Str × Str)) (k v : Str)
    (hnd : (m.map Prod.fst).Nodup) : ((dictInsert m k v).map Prod.fst).Nodup := by
  unfold dictInsert
  split
  · have hkeys : (m.map (fun p => if p.1 == k then (k, v) else p)).map Prod.fst
        = m.map Prod.fst := by
      rw [List.map_map]
      apply List.map_congr_left
      intro p hp
      by_cases hb : (p.1 == k) = true
      · simp only [Function.comp, hb, if_true]
        exact (eq_of_beq hb).symm
      · simp [Function.comp, hb]
    rw [hkeys]
    exact hnd
  · rename_i hkm
    have hknotin : k ∉ m.map Prod.fst := by
      intro hin
      rw [List.mem_map] at hin
      obtain ⟨p, hp, heq⟩ := hin
      have : keyMem m k = true := by
        rw [keyMem, List.any_eq_true]
        exact ⟨p, hp, by rw [heq]; exact beq_self_eq_true k⟩
      exact hkm this
    rw [List.map_append]
    simp [List.nodup_append, hnd, hknotin]

theorem sumContents_overwrite_le (m : List (Str × Str)) (k v : Str)
    (hnd : (m.map Prod.fst).Nodup) :
    sumContents (m.map (fun p => if p.1 == k then (k, v) else p))
      ≤ sumContents m + v.length := by
  induction m with
  | nil => simp [sumContents]
  | cons p m ih =>
    simp only [List.map_cons, List.nodup_cons] at hnd
    by_cases hb : (p.1 == k) = true
    · have hk : p.1 = k := eq_of_beq hb
      have hrest : m.map (fun q => if q.1 == k then (k, v) else q) = m := by
        have hq : ∀ q ∈ m, (if q.1 == k then (k, v) else q) = q := by
          intro q hq
          have hne : q.1 ≠ k := by
            intro he
            exact hnd.1 (hk ▸ he ▸ List.mem_map_of_mem Prod.fst hq)
          rw [if_neg (by simpa using hne)]
        calc m.map (fun q => if q.1 == k then (k, v) else q) = m.map id :=
              List.map_congr_left hq
          _ = m := List.map_id m
      rw [List.map_cons, if_pos hb, hrest]
      simp only [sumContents, List.map_cons, List.sum_cons]
      omega
    · have hrec := ih hnd.2
      rw [List.map_cons, if_neg hb]
      simp only [sumContents, List.map_cons, List.sum_cons] at hrec ⊢
      omega

theorem sumContents_dictInsert_le (m : List (Str × Str)) (k v : Str)
    (hnd : (m.map Prod.fst).Nodup) :
    sumContents (dictInsert m k v) ≤ sumContents m + v.length := by
  unfold dictInsert
  split
  · exact sumContents_overwrite_le m k v hnd
  · simp [sumContents, List.map_append]

theorem collectPass_inv (d : Bool) (es : List FileEntry) :
    ∀ (repo : List (Str × Str)) (total : Nat),
      repo.length ≤ 20 → total ≤ 20000 → sumContents repo ≤ total →
      (repo.map Prod.fst).Nodup →
      (collectPass d es (repo, total)).1.length ≤ 20 ∧
        (collectPass d es (repo, total)).2 ≤ 20000 ∧
        sumContents (collectPass d es (repo, total)).1
          ≤ (collectPass d es (repo, total)).2 ∧
        ((collectPass d es (repo, total)).1.map Prod.fst).Nodup ∧
        ∀ kv ∈ (collectPass d es (repo, total)).1,
          kv ∈ repo ∨ ∃ e ∈ es, e.relPath = kv.1 ∧ e.content = some kv.2 := by
  induction es with
  | nil =>
    intro repo total h1 h2 h3 h4
    exact ⟨h1, h2, h3, h4, fun kv hkv => Or.inl hkv⟩
  | cons e es ih =>
    intro repo total h1 h2 h3 h4
    have hmono : ∀ res : List (Str × Str),
        (∀ kv ∈ res, kv ∈ repo ∨ ∃ x ∈ es, x.relPath = kv.1 ∧ x.content = some kv.2) →
        ∀ kv ∈ res, kv ∈ repo
          ∨ ∃ x ∈ e :: es, x.relPath = kv.1 ∧ x.content = some kv.2 := by
      intro res hp kv hkv
      rcases hp kv hkv with h | ⟨x, hx, hh⟩
      · exact Or.inl h
      · exact Or.inr ⟨x, List.mem_cons_of_mem e hx, hh⟩
    by_cases hstop : repo.length ≥ 20 ∨ total ≥ 20000
    · have hres : collectPass d (e :: es) (repo, total) = (repo, total) := by
        simp [collectPass, hstop]
      rw [hres]
      exact ⟨h1, h2, h3, h4, fun kv hkv => Or.inl hkv⟩
    · push_neg at hstop
      by_cases hdup : (d && keyMem repo e.relPath) = true
      · have hres : collectPass d (e :: es) (repo, total)
            = collectPass d es (repo, total) := by
          simp only [collectPass]
          rw [if_neg (by omega), if_pos hdup]
        rw [hres]
        obtain ⟨a, b, c', d', p⟩ := ih repo total h1 h2 h3 h4
        exact ⟨a, b, c', d', hmono _ p⟩
      · by_cases hsize : e.size > 1024 * 50
        · have hres : collectPass d (e :: es) (repo, total)
              = collectPass d es (repo, total) := by
            simp only [collectPass]
            rw [if_neg (by omega), if_neg (by simp [hdup]), if_pos hsize]
          rw [hres]
          obtain ⟨a, b, c', d', p⟩ := ih repo total h1 h2 h3 h4
          exact ⟨a, b, c', d', hmono _ p⟩
        · cases hc : e.content with
          | none =>
            have hres : collectPass d (e :: es) (repo, total)
                = collectPass d es (repo, total) := by
              simp only [collectPass]
              rw [if_neg (by omega), if_neg (by simp [hdup]), if_neg hsize, hc]
            rw [hres]
            obtain ⟨a, b, c', d', p⟩ := ih repo total h1 h2 h3 h4
            exact ⟨a, b, c', d', hmono _ p⟩
          | some c =>
            by_cases hbudget : total + c.length > 20000
            · have hres : collectPass d (e :: es) (repo, total)
                  = collectPass d es (repo, total) := by
                simp only [collectPass]
                rw [if_neg (by omega), if_neg (by simp [hdup]), if_neg hsize, hc]
                simp [hbudget]
              rw [hres]
              obtain ⟨a, b, c', d', p⟩ := ih repo total h1 h2 h3 h4
              exact ⟨a, b, c', d', hmono _ p⟩
            · have hres : collectPass d (e :: es) (repo, total)
                  = collectPass d es
                      (dictInsert repo e.relPath c, total + c.length) := by
                simp only [collectPass]
                rw [if_neg (by omega), if_neg (by simp [hdup]), if_neg hsize, hc]
                simp [hbudget]
              rw [hres]
              have h1' : (dictInsert repo e.relPath c).length ≤ 20 := by
                have := dictInsert_length_le repo e.relPath c
                omega
              have h2' : total + c.length ≤ 20000 := by omega
              have h3' : sumContents (dictInsert repo e.relPath c)
                  ≤ total + c.length :=
                le_trans (sumContents_dictInsert_le repo e.relPath c h4) (by omega)
              have h4' := keys_dictInsert repo e.relPath c h4
              obtain ⟨a, b, c'', d'', p⟩ := ih _ _ h1' h2' h3' h4'
              refine ⟨a, b, c'', d'', ?_⟩
              intro kv hkv
              rcases p kv hkv with hin | ⟨x, hx, hh⟩
              · rcases mem_dictInsert _ _ _ _ hin with h | rfl
                · exact Or.inl h
                · exact Or.inr ⟨e, List.mem_cons_self e es, rfl, by rw [hc]⟩
              · exact Or.inr ⟨x, List.mem_cons_of_mem e hx, hh⟩

/-- C8: the snapshotter never truncates a file — every snapshot entry is the
full decoded content of a walked candidate — and every returned snapshot
respects both the 20-file cap and the 20000-character cumulative cap. -/
theorem repositoryFiles_caps (priorityFiles walkFiles : List FileEntry) :
    (getRepositoryFiles priorityFiles walkFiles).1.length ≤ 20 ∧
      sumContents (getRepositoryFiles priorityFiles walkFiles).1 ≤ 20000 ∧
      ∀ kv ∈ (getRepositoryFiles priorityFiles walkFiles).1,
        ∃ e ∈ priorityFiles ++ walkFiles,
          e.relPath = kv.1 ∧ e.content = some kv.2 := by
  obtain ⟨a1, b1, c1, d1, p1⟩ := collectPass_inv false priorityFiles [] 0
    (by simp) (by simp) (by simp [sumContents]) (by simp)
  have hp1 : ∀ kv ∈ (collectPass false priorityFiles ([], 0)).1,
      ∃ e ∈ priorityFiles ++ walkFiles, e.relPath = kv.1 ∧ e.content = some kv.2 := by
    intro kv hkv
    rcases p1 kv hkv with h0 | ⟨x, hx, hh⟩
    · exact absurd h0 (List.not_mem_nil kv)
    · exact ⟨x, List.mem_append_left _ hx, hh⟩
  by_cases hcond : (collectPass false priorityFiles ([], 0)).1.length < 20
      ∧ (collectPass false priorityFiles ([], 0)).2 < 20000
  · have hres : getRepositoryFiles priorityFiles walkFiles
        = collectPass true walkFiles (collectPass false priorityFiles ([], 0)) := by
      simp [getRepositoryFiles, hcond]
    obtain ⟨a2, b2, c2, d2, p2⟩ := collectPass_inv true walkFiles
      (collectPass false priorityFiles ([], 0)).1
      (collectPass false priorityFiles ([], 0)).2 a1 b1 c1 d1
    rw [Prod.mk.eta] at a2 b2 c2 d2 p2
    rw [hres]
    refine ⟨a2, le_trans c2 b2, ?_⟩
    intro kv hkv
    rcases p2 kv hkv with hin | ⟨x, hx, hh⟩
    · exact hp1 kv hin
    · exact ⟨x, List.mem_append_right _ hx, hh⟩
  · have hres : getRepositoryFiles priorityFiles walkFiles
        = collectPass false priorityFiles ([], 0) := by
      simp only [getRepositoryFiles]
      rw [if_neg hcond]
    rw [hres]
    exact ⟨a1, le_trans c1 b1, hp1⟩

/-- Witness for C8: the 10-byte file is included in full, the million-byte
file is excluded. -/
theorem repositoryFiles_caps_witness :
    (getRepositoryFiles [] witnessWalkEntries).1
        = [(("small.txt").data, ("aaaaaaaaaa").data)] ∧
      ∃ e ∈ ([] : List FileEntry) ++ witnessWalkEntries,
        e.relPath = ("small.txt").data ∧ e.content = some (("aaaaaaaaaa").data) :=
  ⟨by decide,
    (repositoryFiles_caps [] witnessWalkEntries).2.2
      (("small.txt").data, ("aaaaaaaaaa").data) (by decide)⟩

/-! ## Context Budgeter -/

theorem boundCombined_le (s : Str) (a : Int) (ha : 0 < a) :
    ((boundCombined s a).length : Int) ≤ a * 4 := by
  unfold boundCombined
  split
  · rename_i h
    unfold pySliceTo
    rw [if_pos (by omega)]
    have hlen := List.length_take ((a * 4).toNat) s
    omega
  · rename_i h
    push_neg at h
    by_cases hs : s = []
    · subst hs
      simp
      omega
    · exact h hs

/-- C3: for every pair of context strings and every positive available token
budget, the combined context string sent to the model has estimated token
count (character length divided by the 4-characters-per-token estimate) at
most the budget — via the structured repository-context branch and the final
unstructured hard truncation alike. -/
theorem contextSent_tokens_within_budget (repoContext context : Str) (a : Int)
    (ha : 0 < a) :
    ((generateCodeContext repoContext context a).length : Int) ≤ a * 4 ∧
      (generateCodeContext repoContext context a).length / 4 ≤ a.toNat := by
  have h1 : ((generateCodeContext repoContext context a).length : Int) ≤ a * 4 :=
    boundCombined_le _ a ha
  exact ⟨h1, by omega⟩

/-- Witness for C3 at a ten-character unstructured context and budget 2. -/
theorem contextSent_tokens_within_budget_witness :
    (0 : Int) < 2 ∧
      ((generateCodeContext (("abcdefghij").data) [] 2).length : Int) ≤ 2 * 4 :=
  ⟨by decide,
    (contextSent_tokens_within_budget (("abcdefghij").data) [] 2 (by decide)).1⟩

theorem removeLargest_eq_spec (files : List Str) (budget : Int) :
    ∀ (pairs : List (Nat × Nat)) (inc : List Nat),
      inc.Nodup → (∀ p ∈ pairs, p.1 ∈ inc) → (pairs.map Prod.fst).Nodup →
      removeLargest files budget pairs inc
        = inc.filter (fun j =>
            decide (j ∉ specDropUntilFit files budget pairs (includedSum files inc))) := by
  intro pairs
  induction pairs with
  | nil =>
    intro inc hnd hsub hpnd
    simp [removeLargest, specDropUntilFit]
  | cons p rest ih =>
    obtain ⟨i, L⟩ := p
    intro inc hnd hsub hpnd
    by_cases hfit : (includedSum files inc : Int) ≤ budget
    · rw [show removeLargest files budget ((i, L) :: rest) inc = inc from by
        simp [removeLargest, hfit]]
      rw [show specDropUntilFit files budget ((i, L) :: rest)
            (includedSum files inc) = [] from by
        simp [specDropUntilFit, hfit]]
      simp
    · have himem : i ∈ inc := hsub (i, L) (List.mem_cons_self _ _)
      have hstep1 : removeLargest files budget ((i, L) :: rest) inc
          = removeLargest files budget rest (inc.erase i) := by
        simp [removeLargest, hfit]
      have hstep2 : specDropUntilFit files budget ((i, L) :: rest)
            (includedSum files inc)
          = i :: specDropUntilFit files budget rest
              ((includedSum files inc : Int) - ((files.get? i).getD []).length) := by
        simp [specDropUntilFit, hfit]
      have hsum : ((includedSum files (inc.erase i) : Nat) : Int)
          = (includedSum files inc : Int) - ((files.get? i).getD []).length := by
        have hperm : inc.Perm (i :: inc.erase i) := List.perm_cons_erase himem
        have heq : includedSum files inc = includedSum files (i :: inc.erase i) := by
          unfold includedSum
          exact (hperm.map _).sum_eq
        rw [heq]
        unfold includedSum
        rw [List.map_cons, List.sum_cons]
        push_cast
        ring
      have hsub' : ∀ p ∈ rest, p.1 ∈ inc.erase i := by
        intro p hp
        have hmem : p.1 ∈ inc := hsub p (List.mem_cons_of_mem _ hp)
        have hne : p.1 ≠ i := by
          intro he
          rw [List.map_cons] at hpnd
          have hmm : p.1 ∈ rest.map Prod.fst := List.mem_map_of_mem Prod.fst hp
          rw [he] at hmm
          exact (List.nodup_cons.mp hpnd).1 hmm
        exact (List.mem_erase_of_ne hne).mpr hmem
      have hpnd' : (rest.map Prod.fst).Nodup := by
        rw [List.map_cons] at hpnd
        exact (List.nodup_cons.mp hpnd).2
      rw [hstep1, hstep2, ih (inc.erase i) (hnd.erase i) hsub' hpnd', hsum]
      rw [List.Nodup.erase_eq_filter hnd i, List.filter_filter]
      apply List.filter_congr
      intro j hj
      by_cases h1 : j = i
      · simp [h1]
      · by_cases h2 : j ∈ specDropUntilFit files budget rest
            ((includedSum files inc : Int) - ((files.get? i).getD []).length)
        · simp [h1, h2]
        · simp [h1, h2]

/-- C4: when the structured repository context is handed to the truncation
branch, the result keeps the leading repository-identifier part, removes
file segments in descending order of character length (ties broken by
original position) until the total fits, and re-emits the kept segments in
their original relative order. -/
theorem truncate_structured_context (r : Str) (a : Int)
    (_hbig : (r.length : Int) > a * 4)
    (hfind : strFind r ("\n<|file_sep|>").data > 0) :
    truncateRepoContext r a
        = repoNamePartOf r
            ++ ((keptOf r a).map
                (fun i => ((sepFilesOf r).get? i).getD [])).flatten ∧
      List.Pairwise (fun x y : Nat × Nat => y.2 < x.2 ∨ (x.2 = y.2 ∧ x.1 ≤ y.1))
        (sortPairsDesc (pairsOf (sepFilesOf r))) ∧
      (sortPairsDesc (pairsOf (sepFilesOf r))).Perm (pairsOf (sepFilesOf r)) ∧
      List.Pairwise (· < ·) (keptOf r a) := by
  refine ⟨?_, ?_, ?_, ?_⟩
  · have hperm := List.perm_insertionSort
      (fun x y : Nat × Nat => y.2 < x.2 ∨ (x.2 = y.2 ∧ x.1 ≤ y.1))
      (pairsOf (sepFilesOf r))
    have hmapfst : (pairsOf (sepFilesOf r)).map Prod.fst
        = List.range (sepFilesOf r).length := by
      unfold pairsOf
      rw [List.map_map]
      calc List.map
            (Prod.fst ∘ fun i => (i, ((sepFilesOf r).get? i).getD [] |>.length))
            (List.range (sepFilesOf r).length)
          = List.map id (List.range (sepFilesOf r).length) := rfl
        _ = List.range (sepFilesOf r).length := List.map_id _
    have hsub : ∀ p ∈ sortPairsDesc (pairsOf (sepFilesOf r)),
        p.1 ∈ List.range (sepFilesOf r).length := by
      intro p hp
      rw [sortPairsDesc] at hp
      have hmem : p ∈ pairsOf (sepFilesOf r) := hperm.mem_iff.mp hp
      have := List.mem_map_of_mem Prod.fst hmem
      rwa [hmapfst] at this
    have hpnd : ((sortPairsDesc (pairsOf (sepFilesOf r))).map Prod.fst).Nodup := by
      have h1 : ((pairsOf (sepFilesOf r)).map Prod.fst).Nodup := by
        rw [hmapfst]
        exact List.nodup_range _
      rw [sortPairsDesc]
      exact ((hperm.map Prod.fst).nodup_iff).mpr h1
    have hrl := removeLargest_eq_spec (sepFilesOf r)
      (a * 4 - (repoNamePartOf r).length)
      (sortPairsDesc (pairsOf (sepFilesOf r))) (List.range (sepFilesOf r).length)
      (List.nodup_range _) hsub hpnd
    have hbody : truncateRepoContext r a
        = repoNamePartOf r
            ++ ((removeLargest (sepFilesOf r) (a * 4 - (repoNamePartOf r).length)
                  (sortPairsDesc (pairsOf (sepFilesOf r)))
                  (List.range (sepFilesOf r).length)).map
                (fun i => ((sepFilesOf r).get? i).getD [])).flatten := by
      simp only [truncateRepoContext, repoNamePartOf, sepFilesOf, pairsOf]
      rw [if_pos hfind]
    rw [hbody, hrl]
    rfl
  · haveI : IsTotal (Nat × Nat)
        (fun x y => y.2 < x.2 ∨ (x.2 = y.2 ∧ x.1 ≤ y.1)) := ⟨fun a b => by omega⟩
    haveI : IsTrans (Nat × Nat)
        (fun x y => y.2 < x.2 ∨ (x.2 = y.2 ∧ x.1 ≤ y.1)) :=
      ⟨fun a b c hab hbc => by omega⟩
    exact List.sorted_insertionSort _ _
  · exact List.perm_insertionSort _ _
  · unfold keptOf
    exact List.Pairwise.sublist (List.filter_sublist _) (List.pairwise_lt_range _)

/-- Witness for C4 at a 63-character structured context and budget 6: the
42-character segment is dropped, the header and the 19-character segment
survive in order. -/
theorem truncate_structured_context_witness :
    ((witnessRepoContext.length : Int) > 6 * 4) ∧
      strFind witnessRepoContext ("\n<|file_sep|>").data > 0 ∧
      truncateRepoContext witnessRepoContext 6
        = ("x\n<|file_sep|>b.py\nb\n").data :=
  ⟨by decide, by decide,
    ((truncate_structured_context witnessRepoContext 6 (by decide) (by decide)).1).trans
      (by decide)⟩

/-! ## Iteration Controller -/

theorem generateLoop_behavior (env : GenEnv) (repoFiles : List (Str × Str)) :
    ∀ (fuel iteration : Nat) (prompt : Str) (lastError : Option Str)
      (calls : List (List (Str × Str))),
      (generateLoop env repoFiles fuel iteration prompt lastError calls).currentIteration
          ≤ iteration + fuel ∧
        ((generateLoop env repoFiles fuel iteration prompt lastError calls).success = true
          ↔ (generateLoop env repoFiles fuel iteration prompt lastError calls).endReason
              = EndReason.passed) ∧
        ((generateLoop env repoFiles fuel iteration prompt lastError calls).endReason
              = EndReason.passed
          ∨ (generateLoop env repoFiles fuel iteration prompt lastError calls).endReason
                = EndReason.exhausted
              ∧ (generateLoop env repoFiles fuel iteration prompt
                  lastError calls).currentIteration = iteration + fuel
          ∨ (generateLoop env repoFiles fuel iteration prompt lastError calls).endReason
              = EndReason.emptyResponse
          ∨ (generateLoop env repoFiles fuel iteration prompt lastError calls).endReason
              = EndReason.noFiles
          ∨ (generateLoop env repoFiles fuel iteration prompt lastError calls).endReason
              = EndReason.noWrites) := by
  intro fuel
  induction fuel with
  | zero =>
    intro iteration prompt lastError calls
    refine ⟨by simp [generateLoop], by simp [generateLoop], ?_⟩
    right; left
    exact ⟨rfl, by simp [generateLoop]⟩
  | succ fuel ih =>
    intro iteration prompt lastError calls
    by_cases h1 : (env.response iteration).isEmpty
    · have hres : generateLoop env repoFiles (fuel + 1) iteration prompt lastError calls
          = ⟨false, iteration + 1, lastError, EndReason.emptyResponse,
              calls ++ [repoFiles]⟩ := by
        simp [generateLoop, h1]
      rw [hres]
      exact ⟨by simp, by simp, by simp⟩
    · by_cases h2 : (extractFiles (env.response iteration)).isEmpty
      · have hres : generateLoop env repoFiles (fuel + 1) iteration prompt lastError calls
            = ⟨false, iteration + 1, lastError, EndReason.noFiles,
                calls ++ [repoFiles]⟩ := by
          simp [generateLoop, h1, h2]
        rw [hres]
        exact ⟨by simp, by simp, by simp⟩
      · by_cases h3 : (writeFiles (env.writeOk iteration)
            (extractFiles (env.response iteration)) env.outputDir).isEmpty
        · have hres : generateLoop env repoFiles (fuel + 1) iteration prompt lastError calls
              = ⟨false, iteration + 1, lastError, EndReason.noWrites,
                  calls ++ [repoFiles]⟩ := by
            simp [generateLoop, h1, h2, h3]
          rw [hres]
          exact ⟨by simp, by simp, by simp⟩
        · by_cases h4 : (testCode (writeFiles (env.writeOk iteration)
              (extractFiles (env.response iteration)) env.outputDir)
              (env.setupRes iteration) (env.testRes iteration)
              (env.raised iteration)).1
          · have hres : generateLoop env repoFiles (fuel + 1) iteration prompt
                  lastError calls
                = ⟨true, iteration + 1, lastError, EndReason.passed,
                    calls ++ [repoFiles]⟩ := by
              simp [generateLoop, h1, h2, h3, h4]
            rw [hres]
            exact ⟨by simp, by simp, by simp⟩
          · have hres : generateLoop env repoFiles (fuel + 1) iteration prompt
                  lastError calls
                = generateLoop env repoFiles fuel (iteration + 1)
                    (updatePromptWithError env.repoName prompt
                      (testCode (writeFiles (env.writeOk iteration)
                          (extractFiles (env.response iteration)) env.outputDir)
                        (env.setupRes iteration) (env.testRes iteration)
                        (env.raised iteration)).2
                      (extractFiles (env.response iteration))
                      (env.refineSnapshot iteration))
                    (testCode (writeFiles (env.writeOk iteration)
                        (extractFiles (env.response iteration)) env.outputDir)
                      (env.setupRes iteration) (env.testRes iteration)
                      (env.raised iteration)).2
                    (calls ++ [repoFiles]) := by
              simp [generateLoop, h1, h2, h3, h4]
            rw [hres]
            obtain ⟨a, b, c⟩ := ih (iteration + 1)
              (updatePromptWithError env.repoName prompt
                (testCode (writeFiles (env.writeOk iteration)
                    (extractFiles (env.response iteration)) env.outputDir)
                  (env.setupRes iteration) (env.testRes iteration)
                  (env.raised iteration)).2
                (extractFiles (env.response iteration))
                (env.refineSnapshot iteration))
              (testCode (writeFiles (env.writeOk iteration)
                  (extractFiles (env.response iteration)) env.outputDir)
                (env.setupRes iteration) (env.testRes iteration)
                (env.raised iteration)).2
              (calls ++ [repoFiles])
            refine ⟨by omega, b, ?_⟩
            rcases c with hcase | ⟨he, hc⟩ | hcase | hcase | hcase
            · exact Or.inl hcase
            · exact Or.inr (Or.inl ⟨he, by omega⟩)
            · exact Or.inr (Or.inr (Or.inl hcase))
            · exact Or.inr (Or.inr (Or.inr (Or.inl hcase)))
            · exact Or.inr (Or.inr (Or.inr (Or.inr hcase)))

/-- C1 (amended): in every session, `current_iteration` never exceeds
`max_iterations`; the overall result is `true` exactly when a test run
passed; and the loop ends only by a passing verdict, by reaching
`max_iterations`, or by one of the unrecoverable early aborts (empty model
response, no extracted files, no written files). -/
theorem generate_exit_conditions (env : GenEnv) (maxIterations : Nat) :
    (generate env maxIterations).currentIteration ≤ maxIterations ∧
      ((generate env maxIterations).success = true
        ↔ (generate env maxIterations).endReason = EndReason.passed) ∧
      ((generate env maxIterations).endReason = EndReason.passed
        ∨ (generate env maxIterations).currentIteration = maxIterations
        ∨ (generate env maxIterations).endReason = EndReason.emptyResponse
        ∨ (generate env maxIterations).endReason = EndReason.noFiles
        ∨ (generate env maxIterations).endReason = EndReason.noWrites) := by
  obtain ⟨h1, h2, h3⟩ := generateLoop_behavior env env.initialSnapshot maxIterations 0
    env.initialPrompt none []
  refine ⟨by simpa using h1, h2, ?_⟩
  rcases h3 with h | ⟨_, hc⟩ | h | h | h
  · exact Or.inl h
  · exact Or.inr (Or.inl (by simpa using hc))
  · exact Or.inr (Or.inr (Or.inl h))
  · exact Or.inr (Or.inr (Or.inr (Or.inl h)))
  · exact Or.inr (Or.inr (Or.inr (Or.inr h)))

/-- C1 counterexample: a session whose model returns an empty response ends
after its first iteration with overall failure, although no test passed and
`current_iteration = 1` is not `max_iterations = 3` — the loop also
terminates on the unrecoverable aborts, not only on the two conditions the
claim states. -/
theorem generate_exit_counterexample :
    (generate emptyResponseEnv 3).success = false ∧
      (generate emptyResponseEnv 3).currentIteration = 1 ∧
      (generate emptyResponseEnv 3).currentIteration ≠ 3 := by
  decide

theorem generateLoop_repoArgs (env : GenEnv) (repoFiles : List (Str × Str)) :
    ∀ (fuel iteration : Nat) (prompt : Str) (lastError : Option Str)
      (calls : List (List (Str × Str))),
      iteration ≤ (generateLoop env repoFiles fuel iteration prompt
          lastError calls).currentIteration ∧
        (generateLoop env repoFiles fuel iteration prompt lastError calls).genRepoArgs
          = calls ++ List.replicate
              ((generateLoop env repoFiles fuel iteration prompt
                  lastError calls).currentIteration - iteration) repoFiles := by
  intro fuel
  induction fuel with
  | zero =>
    intro iteration prompt lastError calls
    exact ⟨by simp [generateLoop], by simp [generateLoop]⟩
  | succ fuel ih =>
    intro iteration prompt lastError calls
    by_cases h1 : (env.response iteration).isEmpty
    · have hres : generateLoop env repoFiles (fuel + 1) iteration prompt lastError calls
          = ⟨false, iteration + 1, lastError, EndReason.emptyResponse,
              calls ++ [repoFiles]⟩ := by
        simp [generateLoop, h1]
      rw [hres]
      refine ⟨by simp, ?_⟩
      simp
    · by_cases h2 : (extractFiles (env.response iteration)).isEmpty
      · have hres : generateLoop env repoFiles (fuel + 1) iteration prompt lastError calls
            = ⟨false, iteration + 1, lastError, EndReason.noFiles,
                calls ++ [repoFiles]⟩ := by
          simp [generateLoop, h1, h2]
        rw [hres]
        refine ⟨by simp, ?_⟩
        simp
      · by_cases h3 : (writeFiles (env.writeOk iteration)
            (extractFiles (env.response iteration)) env.outputDir).isEmpty
        · have hres : generateLoop env repoFiles (fuel + 1) iteration prompt lastError calls
              = ⟨false, iteration + 1, lastError, EndReason.noWrites,
                  calls ++ [repoFiles]⟩ := by
            simp [generateLoop, h1, h2, h3]
          rw [hres]
          refine ⟨by simp, ?_⟩
          simp
        · by_cases h4 : (testCode (writeFiles (env.writeOk iteration)
              (extractFiles (env.response iteration)) env.outputDir)
              (env.setupRes iteration) (env.testRes iteration)
              (env.raised iteration)).1
          · have hres : generateLoop env repoFiles (fuel + 1) iteration prompt
                  lastError calls
                = ⟨true, iteration + 1, lastError, EndReason.passed,
                    calls ++ [repoFiles]⟩ := by
              simp [generateLoop, h1, h2, h3, h4]
            rw [hres]
            refine ⟨by simp, ?_⟩
            simp
          · have hres : generateLoop env repoFiles (fuel + 1) iteration prompt
                  lastError calls
                = generateLoop env repoFiles fuel (iteration + 1)
                    (updatePromptWithError env.repoName prompt
                      (testCode (writeFiles (env.writeOk iteration)
                          (extractFiles (env.response iteration)) env.outputDir)
                        (env.setupRes iteration) (env.testRes iteration)
                        (env.raised iteration)).2
                      (extractFiles (env.response iteration))
                      (env.refineSnapshot iteration))
                    (testCode (writeFiles (env.writeOk iteration)
                        (extractFiles (env.response iteration)) env.outputDir)
                      (env.setupRes iteration) (env.testRes iteration)
                      (env.raised iteration)).2
                    (calls ++ [repoFiles]) := by
              simp [generateLoop, h1, h2, h3, h4]
            rw [hres]
            obtain ⟨hle, hargs⟩ := ih (iteration + 1)
              (updatePromptWithError env.repoName prompt
                (testCode (writeFiles (env.writeOk iteration)
                    (extractFiles (env.response iteration)) env.outputDir)
                  (env.setupRes iteration) (env.testRes iteration)
                  (env.raised iteration)).2
                (extractFiles (env.response iteration))
                (env.refineSnapshot iteration))
              (testCode (writeFiles (env.writeOk iteration)
                  (extractFiles (env.response iteration)) env.outputDir)
                (env.setupRes iteration) (env.testRes iteration)
                (env.raised iteration)).2
              (calls ++ [repoFiles])
            refine ⟨by omega, ?_⟩
            rw [hargs, List.append_assoc]
            congr 1
            have hk : (generateLoop env repoFiles fuel (iteration + 1)
                (updatePromptWithError env.repoName prompt
                  (testCode (writeFiles (env.writeOk iteration)
                      (extractFiles (env.response iteration)) env.outputDir)
                    (env.setupRes iteration) (env.testRes iteration)
                    (env.raised iteration)).2
                  (extractFiles (env.response iteration))
                  (env.refineSnapshot iteration))
                (testCode (writeFiles (env.writeOk iteration)
                    (extractFiles (env.response iteration)) env.outputDir)
                  (env.setupRes iteration) (env.testRes iteration)
                  (env.raised iteration)).2
                (calls ++ [repoFiles])).currentIteration - iteration
              = ((generateLoop env repoFiles fuel (iteration + 1)
                  (updatePromptWithError env.repoName prompt
                    (testCode (writeFiles (env.writeOk iteration)
                        (extractFiles (env.response iteration)) env.outputDir)
                      (env.setupRes iteration) (env.testRes iteration)
                      (env.raised iteration)).2
                    (extractFiles (env.response iteration))
                    (env.refineSnapshot iteration))
                  (testCode (writeFiles (env.writeOk iteration)
                      (extractFiles (env.response iteration)) env.outputDir)
                    (env.setupRes iteration) (env.testRes iteration)
                    (env.raised iteration)).2
                  (calls ++ [repoFiles])).currentIteration - (iteration + 1)) + 1 := by
              omega
            rw [hk, List.replicate_succ]
            rfl

/-- C10: the repository snapshot passed as repository context to the model
call is computed once before the first iteration and the identical mapping
is reused for every generation call of the session — one copy per iteration,
never refreshed by the writes performed during iterations. -/
theorem generate_reuses_initial_snapshot (env : GenEnv) (maxIterations : Nat) :
    (generate env maxIterations).genRepoArgs
        = List.replicate (generate env maxIterations).currentIteration
            env.initialSnapshot ∧
      ∀ x ∈ (generate env maxIterations).genRepoArgs, x = env.initialSnapshot := by
  obtain ⟨hle, hargs⟩ := generateLoop_repoArgs env env.initialSnapshot maxIterations 0
    env.initialPrompt none []
  have h1 : (generate env maxIterations).genRepoArgs
      = List.replicate (generate env maxIterations).currentIteration
          env.initialSnapshot := by
    simpa using hargs
  refine ⟨h1, ?_⟩
  intro x hx
  rw [h1] at hx
  exact List.eq_of_mem_replicate hx

/-- Witness for C10 at a session with one generation call: the single
recorded repository-context argument is the initial snapshot. -/
theorem generate_reuses_initial_snapshot_witness :
    [(("f.py").data, ("x = 1").data)] = emptyResponseEnv.initialSnapshot :=
  (generate_reuses_initial_snapshot emptyResponseEnv 3).2
    [(("f.py").data, ("x = 1").data)] (by decide)

end Autocoder
